import Mathlib

/-!
Verification development for the AL_Decorators library
(`al_decorators/__init__.py`).

The library wraps Python functions so that registered callbacks can inspect
and mutate the call's bound arguments before the wrapped function runs.  The
embedding below models:

* `inspect.Signature` for positional-or-keyword parameters: a list of
  parameter names with optional declared defaults (`Param`, `Signature`);
* `Signature.bind` and `BoundArguments` (`bind`, `Arguments`,
  `applyDefaults`, `baArgs`, `baKwargs`), following CPython's semantics:
  `arguments` is an ordered mapping built in parameter order,
  `apply_defaults` rebuilds it in parameter order filling declared defaults,
  and `.args` / `.kwargs` rebuild a positional/keyword call (the positional
  part is the longest run of parameters, from the first one, all present in
  `arguments`; the keyword part collects the remaining present parameters);
* side effects: every Python callable is modelled as a state transformer on
  an abstract world type `σ`, so "invoked exactly once", "never invoked" and
  "exception propagated" are visible as equations on the threaded world;
* a Python function (`Func`) carries its name, its signature and a body
  that receives the world and the full argument mapping and either returns
  a value or raises (`Except ε`);
* calling a Python function (`callFunc`) first binds the actual arguments
  against the declared signature (raising `TypeError` on mismatch, modelled
  as `BindError`) and then runs the body on the default-completed mapping.
-/

/-- A declared parameter: its name and its declared default, if any.
Models a positional-or-keyword `inspect.Parameter`. -/
structure Param (α : Type) where
  name : String
  default : Option α
deriving DecidableEq

/-- A declared parameter list, in declaration order (`inspect.Signature`). -/
abbrev Signature (α : Type) := List (Param α)

/-- `BoundArguments.arguments`: an ordered mapping from parameter name to the
value supplied for one specific call. -/
abbrev Arguments (α : Type) := List (String × α)

/-- First-match association-list lookup, the dictionary access used by
`BoundArguments.arguments`. -/
def alookup : List (String × α) → String → Option α
  | [], _ => none
  | (k, v) :: rest, key => if k = key then some v else alookup rest key

/-- The ways `Signature.bind` can fail (a `TypeError` in Python). -/
inductive BindError where
  | tooManyPositional
  | multipleValues (name : String)
  | unexpectedKeyword (name : String)
  | missingRequired (name : String)
deriving DecidableEq

/-- Core of `Signature.bind`: walk the declared parameters in order, consume
positional arguments first, then look the remaining parameters up among the
keyword arguments; parameters with a declared default may stay absent,
parameters without one must be supplied. -/
def bindParams : Signature α → List α → List (String × α) → Except BindError (Arguments α)
  | [], args, _ =>
    match args with
    | [] => .ok []
    | _ :: _ => .error .tooManyPositional
  | p :: ps, args, kwargs =>
    match args with
    | a :: as =>
      if (alookup kwargs p.name).isSome then .error (.multipleValues p.name)
      else
        match bindParams ps as kwargs with
        | .ok rest => .ok ((p.name, a) :: rest)
        | .error e => .error e
    | [] =>
      match alookup kwargs p.name with
      | some v =>
        match bindParams ps [] kwargs with
        | .ok rest => .ok ((p.name, v) :: rest)
        | .error e => .error e
      | none =>
        match p.default with
        | some _ => bindParams ps [] kwargs
        | none => .error (.missingRequired p.name)

/-- `Signature.bind`: reject keyword arguments that name no declared
parameter, then match the call against the parameter list. -/
def Signature.bind (sig : Signature α) (args : List α) (kwargs : List (String × α)) :
    Except BindError (Arguments α) :=
  match kwargs.find? (fun kv => !decide (kv.1 ∈ sig.map Param.name)) with
  | some kv => .error (.unexpectedKeyword kv.1)
  | none => bindParams sig args kwargs

/-- `BoundArguments.apply_defaults`: rebuild the argument mapping in
parameter order, keeping present entries, filling declared defaults for
absent parameters, and dropping entries that name no parameter. -/
def applyDefaults (sig : Signature α) (ba : Arguments α) : Arguments α :=
  match sig with
  | [] => []
  | p :: ps =>
    match alookup ba p.name with
    | some v => (p.name, v) :: applyDefaults ps ba
    | none =>
      match p.default with
      | some d => (p.name, d) :: applyDefaults ps ba
      | none => applyDefaults ps ba

/-- `BoundArguments.args`: the values of the longest run of parameters,
starting from the first declared one, that are all present in the mapping. -/
def baArgs (sig : Signature α) (ba : Arguments α) : List α :=
  match sig with
  | [] => []
  | p :: ps =>
    match alookup ba p.name with
    | some v => v :: baArgs ps ba
    | none => []

/-- The present parameters of `sig`, with their values, in parameter order. -/
def collectPresent (sig : Signature α) (ba : Arguments α) : Arguments α :=
  match sig with
  | [] => []
  | p :: ps =>
    match alookup ba p.name with
    | some v => (p.name, v) :: collectPresent ps ba
    | none => collectPresent ps ba

/-- `BoundArguments.kwargs`: once the positional run stops at the first
absent parameter, every later present parameter is passed by keyword. -/
def baKwargs (sig : Signature α) (ba : Arguments α) : Arguments α :=
  match sig with
  | [] => []
  | p :: ps =>
    match alookup ba p.name with
    | some _ => baKwargs ps ba
    | none => collectPresent ps ba

/-- Every parameter without a declared default has an entry in `ba`. -/
def ReqPresentB (sig : Signature α) (ba : Arguments α) : Bool :=
  sig.all (fun p => p.default.isSome || (alookup ba p.name).isSome)

/-- The caller supplied parameter `n`: either positionally (`n` is among the
first `args.length` declared parameters) or by keyword. -/
def suppliedB (sig : Signature α) (args : List α) (kwargs : List (String × α))
    (n : String) : Bool :=
  decide (n ∈ (sig.take args.length).map Param.name) ||
    (decide (n ∈ sig.map Param.name) && (alookup kwargs n).isSome)

/-- A Python function: its `__name__`, its declared signature, and its body.
The body receives the world and the bound argument mapping (the function's
locals after binding and default application) and returns a value or raises
an exception of type `ε`. -/
structure Func (σ α β ε : Type) where
  name : String
  sig : Signature α
  body : σ → Arguments α → σ × Except ε β

/-- How a call of a (decorated or plain) function can fail. -/
inductive CallError (ε : Type) where
  | binding (e : BindError)
  | raised (e : ε)
  | invalidState
deriving DecidableEq

/-- Run a function body and tag a raised exception as such. -/
def runBody (f : Func σ α β ε) (w : σ) (ba : Arguments α) :
    σ × Except (CallError ε) β :=
  match f.body w ba with
  | (w', .ok b) => (w', .ok b)
  | (w', .error e) => (w', .error (.raised e))

/-- A plain Python call `f(*args, **kwargs)`: bind the actual arguments
against the declared signature, apply declared defaults, run the body. -/
def callFunc (f : Func σ α β ε) (w : σ) (args : List α)
    (kwargs : List (String × α)) : σ × Except (CallError ε) β :=
  match Signature.bind f.sig args kwargs with
  | .error e => (w, .error (.binding e))
  | .ok ba => runBody f w (applyDefaults f.sig ba)

/-- A callback of `signature_decorator_factory`: receives the current
`BoundArguments` and may mutate them, with arbitrary side effects on `σ`. -/
abbrev Callback (σ α : Type) := σ → Arguments α → σ × Arguments α

/-- The callback loop of the wrappers: run each callback, in registration
order, on the current argument mapping. -/
def runCallbacks : List (Callback σ α) → σ → Arguments α → σ × Arguments α
  | [], w, ba => (w, ba)
  | cb :: rest, w, ba =>
    let r := cb w ba
    runCallbacks rest r.1 r.2

/-- Lines 45-46 of the source, shared by both wrappers:
`ba = sig.bind(*args, **kw); if apply_defaults: ba.apply_defaults()`. -/
def bindApply (sig : Signature α) (apDef : Bool) (args : List α)
    (kwargs : List (String × α)) : Except BindError (Arguments α) :=
  match Signature.bind sig args kwargs with
  | .error e => .error e
  | .ok ba => .ok (if apDef then applyDefaults sig ba else ba)

/-- `signature_decorator_factory(*callbacks, apply_defaults)(func)` applied
to a call `(*args, **kwargs)` in world `w`: bind, optionally apply declared
defaults, run the callbacks in order on the bound arguments, then call the
wrapped function with `*ba.args, **ba.kwargs`. -/
def signature_decorator_factory (callbacks : List (Callback σ α))
    (apply_defaults : Bool) (func : Func σ α β ε) (w : σ) (args : List α)
    (kwargs : List (String × α)) : σ × Except (CallError ε) β :=
  match bindApply func.sig apply_defaults args kwargs with
  | .error e => (w, .error (.binding e))
  | .ok ba =>
    let r := runCallbacks callbacks w ba
    callFunc func r.1 (baArgs func.sig r.2) (baKwargs func.sig r.2)

/-!
The class-based variant `SignatureDecorator`.  A callback receives, per the
`apply_self` flag, either the decorator instance itself or the current
`BoundArguments`; `CbArg` models that single dynamically-typed argument.
`SDView` is the instance as a callback sees it during a call: the stored
function, the stored signature, and the live `BoundArguments` of the
in-flight call (the source assigns `self.boundarguments` at the start of
`inner`, so during a call the attribute is the current mapping).
-/

/-- The decorator instance as seen by a callback during a call. -/
structure SDView (σ α β ε : Type) where
  func : Option (Func σ α β ε)
  signature : Option (Signature α)
  boundarguments : Arguments α

/-- The single argument a `SignatureDecorator` callback receives: the
instance (`apply_self = True`) or the raw bound arguments. -/
inductive CbArg (σ α β ε : Type) where
  | self (v : SDView σ α β ε)
  | bargs (ba : Arguments α)

/-- A `SignatureDecorator` callback: may mutate the bound arguments (its
return value) with arbitrary side effects on `σ`. -/
abbrev SDCb (σ α β ε : Type) := σ → CbArg σ α β ε → σ × Arguments α

/-- State of a `SignatureDecorator` instance. -/
structure SigDec (σ α β ε : Type) where
  callbacks : List (SDCb σ α β ε)
  apply_defaults : Bool
  apply_self : Bool
  func : Option (Func σ α β ε)
  signature : Option (Signature α)
  isset : Bool

/-- `SignatureDecorator.__init__`. -/
def SigDec.init (cbs : List (SDCb σ α β ε)) (apDef apSelf : Bool) :
    SigDec σ α β ε :=
  { callbacks := cbs, apply_defaults := apDef, apply_self := apSelf,
    func := none, signature := none, isset := false }

/-- The error `SignatureDecorator.__call__` raises on reuse (an
`AttributeError` in the source). -/
inductive ReuseError where
  | reuse
deriving DecidableEq

/-- `SignatureDecorator.__call__(func)`: raise on reuse if `_isset` is set,
else store the function and its signature.  The source checks `_isset` but
never assigns it `True` anywhere, so the returned state keeps `isset`
unchanged, exactly as the code does. -/
def SigDec.call (d : SigDec σ α β ε) (f : Func σ α β ε) :
    Except ReuseError (SigDec σ α β ε) :=
  if d.isset then .error .reuse
  else .ok { d with func := some f, signature := some f.sig }

/-- The callback loop of `SignatureDecorator`'s `inner`: each callback gets
the instance view (with the live bound arguments) or the bound arguments,
per `apply_self`, and its returned mapping feeds the next callback. -/
def SigDec.runCbs (apSelf : Bool) (fo : Option (Func σ α β ε))
    (so : Option (Signature α)) :
    List (SDCb σ α β ε) → σ → Arguments α → σ × Arguments α
  | [], w, ba => (w, ba)
  | cb :: rest, w, ba =>
    let r := if apSelf then cb w (.self ⟨fo, so, ba⟩) else cb w (.bargs ba)
    SigDec.runCbs apSelf fo so rest r.1 r.2

/-- The `inner` closure returned by `SignatureDecorator.__call__`: bind the
call against the stored signature, optionally apply declared defaults, run
the callbacks, then call the captured function with `*ba.args, **ba.kwargs`.
`invalidState` models the attribute error of `None.bind` when no signature
was ever stored (impossible for a state produced by `SigDec.call`). -/
def SigDec.inner (d : SigDec σ α β ε) (func : Func σ α β ε) (w : σ)
    (args : List α) (kwargs : List (String × α)) :
    σ × Except (CallError ε) β :=
  match d.signature with
  | none => (w, .error .invalidState)
  | some sig =>
    match bindApply sig d.apply_defaults args kwargs with
    | .error e => (w, .error (.binding e))
    | .ok ba =>
      let r := SigDec.runCbs d.apply_self d.func d.signature d.callbacks w ba
      callFunc func r.1 (baArgs sig r.2) (baKwargs sig r.2)

/-- How `SignatureDecorator.factory`'s decoration can fail: the (in fact
unreachable) reuse error of the fresh instance, or an exception raised by
the `ondecoration` hook. -/
inductive FactoryError (η : Type) where
  | reuse (e : ReuseError)
  | ondecoration (e : η)
deriving DecidableEq

/-- `SignatureDecorator.factory(*callbacks, ...)(func)`: create a fresh
instance, decorate `func` with it, then run the `ondecoration` hook on the
instance; an exception from the hook propagates out of the decoration. -/
def SigDec.factory (cbs : List (SDCb σ α β ε)) (apDef apSelf : Bool)
    (ondec : Option (SigDec σ α β ε → Except η Unit)) (func : Func σ α β ε) :
    Except (FactoryError η) (SigDec σ α β ε) :=
  match (SigDec.init cbs apDef apSelf).call func with
  | .error e => .error (.reuse e)
  | .ok inst =>
    match ondec with
    | none => .ok inst
    | some g =>
      match g inst with
      | .error e => .error (.ondecoration e)
      | .ok _ => .ok inst

/-!
`dynamic_defaults(**kw)`.  A configured value is an arbitrary Python object:
`asValue` is the object itself (used verbatim as a fallback), and `call`
is its behaviour under invocation with no arguments — `none` when the
object is not callable (so that invoking it raises `TypeError`), and
`some g` when it is, where `g w = (w', none)` models an invocation that
raises after side effects `w'` and `g w = (w', some r)` a return of `r`.
-/

/-- A value configured in `dynamic_defaults`. -/
structure DConf (σ α : Type) where
  asValue : α
  call : Option (σ → σ × Option α)

/-- `try: v() except: v` — attempt to invoke the configured value; on any
failure (not callable, or the provider raised) fall back to the configured
value itself, unchanged. -/
def dd_invoke (c : DConf σ α) (w : σ) : σ × α :=
  match c.call with
  | none => (w, c.asValue)
  | some g =>
    match g w with
    | (w', some r) => (w', r)
    | (w', none) => (w', c.asValue)

/-- The loop of `dynamic_defaults.update`: for each configured parameter
absent from the bound arguments, store the invocation result (dictionary
insertion of a fresh key appends at the end). -/
def dd_fill (kw : List (String × DConf σ α)) (w : σ) (ba : Arguments α) :
    σ × Arguments α :=
  match kw with
  | [] => (w, ba)
  | (k, c) :: rest =>
    if (alookup ba k).isSome then dd_fill rest w ba
    else
      let r := dd_invoke c w
      dd_fill rest r.1 (ba ++ [(k, r.2)])

/-- The `update` callback of `dynamic_defaults`: fill configured defaults
into the instance's live bound arguments, then `ba.apply_defaults()`.
It is registered with `apply_self = True`, so the `bargs` branch is never
exercised under `dynamic_defaults`; it leaves the mapping unchanged. -/
def dd_update (kw : List (String × DConf σ α)) : SDCb σ α β ε :=
  fun w arg =>
    match arg with
    | .self v =>
      let r := dd_fill kw w v.boundarguments
      (r.1,
        match v.signature with
        | some sig => applyDefaults sig r.2
        | none => r.2)
    | .bargs ba => (w, ba)

/-- The decoration-time error of `dynamic_defaults` (a `TypeError` in the
source, whose message names the offending parameter and the function). -/
structure ConfigError where
  param : String
  funcName : String
deriving DecidableEq

/-- The check loop of `dynamic_defaults.ondecoration`: first configured
name that is not a declared parameter, in configuration order. -/
def dd_check (params : List String) :
    List (String × DConf σ α) → Option String
  | [] => none
  | (k, _) :: rest => if k ∈ params then dd_check params rest else some k

/-- `dynamic_defaults.ondecoration`: validate every configured name against
the decorated function's parameters (the instance always carries a
signature and a function by the time the factory invokes the hook). -/
def dd_ondecoration (kw : List (String × DConf σ α)) (d : SigDec σ α β ε) :
    Except ConfigError Unit :=
  match d.signature, d.func with
  | some sig, some f =>
    match dd_check (sig.map Param.name) kw with
    | some k => .error ⟨k, f.name⟩
    | none => .ok ()
  | _, _ => .ok ()

/-- `dynamic_defaults(**kw)` as a decorator:
`SignatureDecorator.factory(update, apply_defaults=False, apply_self=True,
ondecoration=ondecoration)`. -/
def dynamic_defaults (kw : List (String × DConf σ α)) :
    Func σ α β ε → Except (FactoryError ConfigError) (SigDec σ α β ε) :=
  SigDec.factory [dd_update kw] false true (some (dd_ondecoration kw))

/-!
`defaultproperty(func)`.  The generated property stores an explicit
override on the owning instance under a derived private attribute name;
the model keeps that per-instance slot as an `Option α` (present attribute
= `some`).  The getter falls back to invoking the decorated function when
the attribute is absent; the fallback is a state transformer on `σ`, so
re-invocation on every unset read is visible in the threaded world.
-/

/-- `delattr` on an absent attribute raises `AttributeError`. -/
inductive AttrError where
  | missing
deriving DecidableEq

/-- The generated getter (`inner`): `try: return getattr(self, varname)
except AttributeError: return func(self, ...)`. -/
def defaultproperty_inner (func : σ → σ × α) (slot : Option α) (w : σ) :
    σ × α :=
  match slot with
  | some v => (w, v)
  | none => func w

/-- The generated setter: store the value as-is, even a null-like one. -/
def defaultproperty_setter (_slot : Option α) (value : α) : Option α :=
  some value

/-- The generated deleter: remove the stored attribute, raising when it is
not set. -/
def defaultproperty_deleter (slot : Option α) :
    Except AttrError (Option α) :=
  match slot with
  | some _ => .ok none
  | none => .error .missing

/-! Supporting lemmas about lookups and key membership. -/

theorem alookup_eq_none {A : Type} {l : List (String × A)} {k : String} :
    alookup l k = none ↔ k ∉ l.map Prod.fst := by
  induction l with
  | nil => simp [alookup]
  | cons kv rest ih =>
    obtain ⟨k', v⟩ := kv
    by_cases h : k' = k
    · subst h; simp [alookup]
    · rw [alookup, if_neg h]
      simp only [List.map_cons, List.mem_cons]
      rw [ih]
      constructor
      · intro hn hc
        rcases hc with hc | hc
        · exact h hc.symm
        · exact hn hc
      · intro hn hc
        exact hn (Or.inr hc)

theorem alookup_append {A : Type} (l1 l2 : List (String × A)) (k : String) :
    alookup (l1 ++ l2) k =
      (match alookup l1 k with
       | some v => some v
       | none => alookup l2 k) := by
  induction l1 with
  | nil => simp [alookup]
  | cons kv rest ih =>
    obtain ⟨k', v⟩ := kv
    by_cases h : k' = k
    · subst h; simp [alookup]
    · simp [alookup, h, ih]

theorem collectPresent_keys {α : Type} {sig : Signature α} {ba : Arguments α}
    {k : String} (h : k ∈ (collectPresent sig ba).map Prod.fst) :
    k ∈ sig.map Param.name := by
  induction sig with
  | nil => simp [collectPresent] at h
  | cons p ps ih =>
    rw [collectPresent] at h
    cases hl : alookup ba p.name with
    | some v =>
      rw [hl] at h
      simp only [List.map_cons, List.mem_cons] at h ⊢
      rcases h with h | h
      · exact Or.inl h
      · exact Or.inr (ih h)
    | none =>
      rw [hl] at h
      simp only [List.map_cons, List.mem_cons]
      exact Or.inr (ih h)

theorem alookup_collectPresent_none {α : Type} {sig : Signature α}
    {ba : Arguments α} {k : String} (h : k ∉ sig.map Param.name) :
    alookup (collectPresent sig ba) k = none :=
  alookup_eq_none.mpr (fun hmem => h (collectPresent_keys hmem))

theorem baKwargs_keys {α : Type} {sig : Signature α} {ba : Arguments α}
    {k : String} (h : k ∈ (baKwargs sig ba).map Prod.fst) :
    k ∈ sig.map Param.name := by
  induction sig with
  | nil => simp [baKwargs] at h
  | cons p ps ih =>
    rw [baKwargs] at h
    cases hl : alookup ba p.name with
    | some v =>
      rw [hl] at h
      simp only [List.map_cons, List.mem_cons]
      exact Or.inr (ih h)
    | none =>
      rw [hl] at h
      simp only [List.map_cons, List.mem_cons]
      exact Or.inr (collectPresent_keys h)

theorem applyDefaults_keys {α : Type} {sig : Signature α} {ba : Arguments α}
    {k : String} (h : k ∈ (applyDefaults sig ba).map Prod.fst) :
    k ∈ sig.map Param.name := by
  induction sig with
  | nil => simp [applyDefaults] at h
  | cons p ps ih =>
    rw [applyDefaults] at h
    simp only [List.map_cons, List.mem_cons]
    cases hl : alookup ba p.name with
    | some v =>
      rw [hl] at h
      simp only [List.map_cons, List.mem_cons] at h
      rcases h with h | h
      · exact Or.inl h
      · exact Or.inr (ih h)
    | none =>
      rw [hl] at h
      cases hd : p.default with
      | some d =>
        rw [hd] at h
        simp only [List.map_cons, List.mem_cons] at h
        rcases h with h | h
        · exact Or.inl h
        · exact Or.inr (ih h)
      | none =>
        rw [hd] at h
        exact Or.inr (ih h)

theorem alookup_applyDefaults_none {α : Type} {sig : Signature α}
    {ba : Arguments α} {k : String} (h : k ∉ sig.map Param.name) :
    alookup (applyDefaults sig ba) k = none :=
  alookup_eq_none.mpr (fun hmem => h (applyDefaults_keys hmem))

theorem applyDefaults_congr {α : Type} {sig : Signature α} {x y : Arguments α}
    (h : ∀ p ∈ sig, alookup x p.name = alookup y p.name) :
    applyDefaults sig x = applyDefaults sig y := by
  induction sig with
  | nil => rfl
  | cons p ps ih =>
    have hp := h p (List.mem_cons_self p ps)
    have ih' := ih (fun q hq => h q (List.mem_cons_of_mem _ hq))
    rw [applyDefaults, applyDefaults, ← hp]
    cases alookup x p.name with
    | some v => rw [ih']
    | none =>
      cases p.default with
      | some d => rw [ih']
      | none => exact ih'

theorem alookup_applyDefaults {α : Type} {sig : Signature α} {ba : Arguments α}
    {p : Param α} (hnd : (sig.map Param.name).Nodup) (hp : p ∈ sig) :
    alookup (applyDefaults sig ba) p.name =
      (match alookup ba p.name with
       | some v => some v
       | none => p.default) := by
  induction sig with
  | nil => cases hp
  | cons q qs ih =>
    rw [List.map_cons, List.nodup_cons] at hnd
    rcases List.mem_cons.mp hp with hq | hq
    · subst hq
      rw [applyDefaults]
      cases hl : alookup ba p.name with
      | some v => simp [alookup]
      | none =>
        cases hd : p.default with
        | some d => simp [alookup]
        | none => exact alookup_applyDefaults_none hnd.1
    · have hpn : p.name ∈ qs.map Param.name := List.mem_map_of_mem _ hq
      have hne : q.name ≠ p.name := fun h => hnd.1 (h ▸ hpn)
      rw [applyDefaults]
      cases hl : alookup ba q.name with
      | some v =>
        rw [alookup, if_neg hne]
        exact ih hnd.2 hq
      | none =>
        cases hd : q.default with
        | some d =>
          rw [alookup, if_neg hne]
          exact ih hnd.2 hq
        | none => exact ih hnd.2 hq

theorem alookup_cons_self {A : Type} {l : List (String × A)} {k : String}
    {v : A} : alookup ((k, v) :: l) k = some v := by
  rw [alookup, if_pos rfl]

theorem alookup_cons_ne {A : Type} {l : List (String × A)} {k n : String}
    {v : A} (h : k ≠ n) : alookup ((k, v) :: l) n = alookup l n := by
  rw [alookup, if_neg h]

theorem alookup_collectPresent {α : Type} {sig : Signature α}
    {ba : Arguments α} {n : String} (hnd : (sig.map Param.name).Nodup)
    (hn : n ∈ sig.map Param.name) :
    alookup (collectPresent sig ba) n = alookup ba n := by
  induction sig with
  | nil => cases hn
  | cons q qs ih =>
    rw [List.map_cons, List.nodup_cons] at hnd
    rw [List.map_cons, List.mem_cons] at hn
    rw [collectPresent]
    rcases hn with hn | hn
    · subst hn
      cases hl : alookup ba q.name with
      | some v => exact alookup_cons_self
      | none => exact alookup_collectPresent_none hnd.1
    · have hne : q.name ≠ n := fun h => hnd.1 (h ▸ hn)
      cases hl : alookup ba q.name with
      | some v =>
        rw [alookup_cons_ne hne]
        exact ih hnd.2 hn
      | none => exact ih hnd.2 hn

theorem applyDefaults_idem {α : Type} {sig : Signature α} {ba : Arguments α}
    (hnd : (sig.map Param.name).Nodup) :
    applyDefaults sig (applyDefaults sig ba) = applyDefaults sig ba := by
  induction sig with
  | nil => rfl
  | cons p ps ih =>
    rw [List.map_cons, List.nodup_cons] at hnd
    have hstep : ∀ v : α,
        applyDefaults ps ((p.name, v) :: applyDefaults ps ba)
          = applyDefaults ps ba := by
      intro v
      have hc : ∀ q ∈ ps, alookup ((p.name, v) :: applyDefaults ps ba) q.name
          = alookup (applyDefaults ps ba) q.name := by
        intro q hq
        have hqn : q.name ∈ ps.map Param.name := List.mem_map_of_mem _ hq
        exact alookup_cons_ne (fun h => hnd.1 (h ▸ hqn))
      rw [applyDefaults_congr hc, ih hnd.2]
    cases hl : alookup ba p.name with
    | some v =>
      simp only [applyDefaults, hl, alookup_cons_self]
      rw [hstep v]
    | none =>
      cases hd : p.default with
      | some d =>
        simp only [applyDefaults, hl, hd, alookup_cons_self]
        rw [hstep d]
      | none =>
        simp only [applyDefaults, hl, hd, alookup_applyDefaults_none hnd.1]
        exact ih hnd.2

theorem bindParams_kw_congr {α : Type} {sig : Signature α}
    {kw1 kw2 : List (String × α)}
    (h : ∀ p ∈ sig, alookup kw1 p.name = alookup kw2 p.name) :
    ∀ as, bindParams sig as kw1 = bindParams sig as kw2 := by
  induction sig with
  | nil => intro as; cases as <;> rfl
  | cons p ps ih =>
    intro as
    have hp := h p (List.mem_cons_self p ps)
    have ih' := ih (fun q hq => h q (List.mem_cons_of_mem _ hq))
    cases as with
    | cons a as' =>
      simp only [bindParams, hp, ih' as']
    | nil =>
      simp only [bindParams, hp, ih' []]

theorem bindParams_keys {α : Type} {sig : Signature α} {as : List α}
    {kw : List (String × α)} {ba : Arguments α} {k : String}
    (h : bindParams sig as kw = .ok ba) (hk : k ∈ ba.map Prod.fst) :
    k ∈ sig.map Param.name := by
  induction sig generalizing as ba with
  | nil =>
    cases as with
    | nil =>
      simp only [bindParams] at h
      cases h
      simp at hk
    | cons a as' => simp only [bindParams] at h; cases h
  | cons p ps ih =>
    cases as with
    | cons a as' =>
      simp only [bindParams] at h
      split at h
      · cases h
      · cases hb : bindParams ps as' kw with
        | ok rest =>
          rw [hb] at h
          cases h
          rw [List.map_cons, List.mem_cons] at hk ⊢
          rcases hk with hk | hk
          · exact Or.inl hk
          · exact Or.inr (ih hb hk)
        | error e => rw [hb] at h; cases h
    | nil =>
      simp only [bindParams] at h
      cases hkw : alookup kw p.name with
      | some v =>
        rw [hkw] at h
        cases hb : bindParams ps [] kw with
        | ok rest =>
          rw [hb] at h
          cases h
          rw [List.map_cons, List.mem_cons] at hk ⊢
          rcases hk with hk | hk
          · exact Or.inl hk
          · exact Or.inr (ih hb hk)
        | error e => rw [hb] at h; cases h
      | none =>
        rw [hkw] at h
        cases hd : p.default with
        | some d =>
          rw [hd] at h
          rw [List.map_cons, List.mem_cons]
          exact Or.inr (ih h hk)
        | none => rw [hd] at h; cases h

theorem alookup_bindParams_none {α : Type} {sig : Signature α} {as : List α}
    {kw : List (String × α)} {ba : Arguments α} {k : String}
    (h : bindParams sig as kw = .ok ba) (hk : k ∉ sig.map Param.name) :
    alookup ba k = none :=
  alookup_eq_none.mpr (fun hm => hk (bindParams_keys h hm))

theorem bindParams_nil_collect {α : Type} {sig : Signature α}
    {ba : Arguments α} (hnd : (sig.map Param.name).Nodup)
    (hreq : ReqPresentB sig ba = true) :
    bindParams sig [] (collectPresent sig ba) = .ok (collectPresent sig ba) := by
  induction sig with
  | nil => rfl
  | cons q qs ih =>
    rw [List.map_cons, List.nodup_cons] at hnd
    rw [ReqPresentB, List.all_cons, Bool.and_eq_true] at hreq
    cases hl : alookup ba q.name with
    | some v =>
      have hcongr : bindParams qs [] ((q.name, v) :: collectPresent qs ba)
          = bindParams qs [] (collectPresent qs ba) :=
        bindParams_kw_congr (fun p hp =>
          alookup_cons_ne (fun h => hnd.1 (by rw [h]; exact List.mem_map_of_mem _ hp))) []
      simp only [collectPresent, hl, bindParams, alookup_cons_self, hcongr,
        ih hnd.2 hreq.2]
    | none =>
      have hq : q.default.isSome = true := by
        have h1 := hreq.1
        rw [Bool.or_eq_true] at h1
        rcases h1 with h | h
        · exact h
        · rw [hl] at h; cases h
      cases hd : q.default with
      | none => rw [hd] at hq; cases hq
      | some d =>
        simp only [collectPresent, hl, bindParams,
          alookup_collectPresent_none hnd.1, hd, ih hnd.2 hreq.2]

theorem bindParams_roundtrip {α : Type} {sig : Signature α} {ba : Arguments α}
    (hnd : (sig.map Param.name).Nodup) (hreq : ReqPresentB sig ba = true) :
    bindParams sig (baArgs sig ba) (baKwargs sig ba)
      = .ok (collectPresent sig ba) := by
  induction sig with
  | nil => rfl
  | cons q qs ih =>
    rw [List.map_cons, List.nodup_cons] at hnd
    rw [ReqPresentB, List.all_cons, Bool.and_eq_true] at hreq
    cases hl : alookup ba q.name with
    | some v =>
      have hnone : alookup (baKwargs qs ba) q.name = none :=
        alookup_eq_none.mpr (fun hm => hnd.1 (baKwargs_keys hm))
      simp only [baArgs, baKwargs, collectPresent, hl]
      simp [bindParams, hnone, ih hnd.2 hreq.2]
    | none =>
      have hq : q.default.isSome = true := by
        have h1 := hreq.1
        rw [Bool.or_eq_true] at h1
        rcases h1 with h | h
        · exact h
        · rw [hl] at h; cases h
      cases hd : q.default with
      | none => rw [hd] at hq; cases hq
      | some d =>
        have hnone : alookup (collectPresent qs ba) q.name = none :=
          alookup_collectPresent_none hnd.1
        simp only [baArgs, baKwargs, collectPresent, hl]
        simp [bindParams, hnone, hd, bindParams_nil_collect hnd.2 hreq.2]

theorem find?_undeclared_none {α : Type} {sig : Signature α}
    {kwargs : List (String × α)}
    (h : ∀ kv ∈ kwargs, kv.1 ∈ sig.map Param.name) :
    kwargs.find? (fun kv => !decide (kv.1 ∈ sig.map Param.name)) = none := by
  induction kwargs with
  | nil => rfl
  | cons kv rest ih =>
    have h1 : (!decide (kv.1 ∈ sig.map Param.name)) = false := by
      simp [h kv (List.mem_cons_self kv rest)]
    rw [List.find?_cons, h1]
    exact ih (fun x hx => h x (List.mem_cons_of_mem _ hx))

theorem bind_eq_bindParams {α : Type} {sig : Signature α} {args : List α}
    {kwargs : List (String × α)}
    (h : ∀ kv ∈ kwargs, kv.1 ∈ sig.map Param.name) :
    Signature.bind sig args kwargs = bindParams sig args kwargs := by
  unfold Signature.bind
  rw [find?_undeclared_none h]

theorem bind_ok_elim {α : Type} {sig : Signature α} {args : List α}
    {kwargs : List (String × α)} {ba : Arguments α}
    (h : Signature.bind sig args kwargs = .ok ba) :
    bindParams sig args kwargs = .ok ba ∧
      ∀ kv ∈ kwargs, kv.1 ∈ sig.map Param.name := by
  unfold Signature.bind at h
  cases hf : kwargs.find? (fun kv => !decide (kv.1 ∈ sig.map Param.name)) with
  | some kv => rw [hf] at h; cases h
  | none =>
    rw [hf] at h
    refine ⟨h, fun kv hkv => ?_⟩
    have := List.find?_eq_none.mp hf kv hkv
    simpa using this

theorem bind_roundtrip {α : Type} {sig : Signature α} {ba : Arguments α}
    (hnd : (sig.map Param.name).Nodup) (hreq : ReqPresentB sig ba = true) :
    Signature.bind sig (baArgs sig ba) (baKwargs sig ba)
      = .ok (collectPresent sig ba) := by
  rw [bind_eq_bindParams (fun kv hkv => baKwargs_keys (List.mem_map_of_mem _ hkv))]
  exact bindParams_roundtrip hnd hreq

theorem callFunc_of_req {σ α β ε : Type} {f : Func σ α β ε} {w : σ}
    {ba : Arguments α} (hnd : (f.sig.map Param.name).Nodup)
    (hreq : ReqPresentB f.sig ba = true) :
    callFunc f w (baArgs f.sig ba) (baKwargs f.sig ba)
      = runBody f w (applyDefaults f.sig ba) := by
  unfold callFunc
  rw [bind_roundtrip hnd hreq]
  exact congrArg (runBody f w) (applyDefaults_congr (fun p hp =>
    alookup_collectPresent hnd (List.mem_map_of_mem _ hp)))

theorem reqPresent_cons_irrel {α : Type} {ps : Signature α}
    {rest : Arguments α} {k : String} {v : α}
    (hk : k ∉ ps.map Param.name) (h : ReqPresentB ps rest = true) :
    ReqPresentB ps ((k, v) :: rest) = true := by
  rw [ReqPresentB, List.all_eq_true] at h ⊢
  intro q hq
  have hh := h q hq
  rw [alookup_cons_ne (fun he => hk (by rw [he]; exact List.mem_map_of_mem _ hq))]
  exact hh

theorem reqPresent_append {α : Type} {sig : Signature α} {ba l : Arguments α}
    (h : ReqPresentB sig ba = true) : ReqPresentB sig (ba ++ l) = true := by
  rw [ReqPresentB, List.all_eq_true] at h ⊢
  intro q hq
  have hh := h q hq
  rw [Bool.or_eq_true] at hh ⊢
  rcases hh with hh | hh
  · exact Or.inl hh
  · cases hx : alookup ba q.name with
    | none => rw [hx] at hh; cases hh
    | some v =>
      refine Or.inr ?_
      rw [alookup_append, hx]
      rfl

theorem reqPresent_applyDefaults {α : Type} {sig : Signature α}
    {ba : Arguments α} (hnd : (sig.map Param.name).Nodup)
    (h : ReqPresentB sig ba = true) :
    ReqPresentB sig (applyDefaults sig ba) = true := by
  rw [ReqPresentB, List.all_eq_true] at h ⊢
  intro q hq
  have hh := h q hq
  rw [Bool.or_eq_true] at hh ⊢
  have had := @alookup_applyDefaults _ _ ba _ hnd hq
  rcases hh with hh | hh
  · exact Or.inl hh
  · cases hx : alookup ba q.name with
    | none => rw [hx] at hh; cases hh
    | some v =>
      rw [hx] at had
      refine Or.inr ?_
      rw [had]
      rfl

theorem bindParams_req_present {α : Type} {sig : Signature α} {as : List α}
    {kw : List (String × α)} {ba : Arguments α}
    (hnd : (sig.map Param.name).Nodup) (h : bindParams sig as kw = .ok ba) :
    ReqPresentB sig ba = true := by
  induction sig generalizing as ba with
  | nil => rfl
  | cons p ps ih =>
    rw [List.map_cons, List.nodup_cons] at hnd
    rw [ReqPresentB, List.all_cons, Bool.and_eq_true]
    cases as with
    | cons a as' =>
      simp only [bindParams] at h
      split at h
      · cases h
      · cases hb : bindParams ps as' kw with
        | error e => rw [hb] at h; cases h
        | ok rest =>
          rw [hb] at h
          cases h
          exact ⟨by simp [alookup_cons_self],
            reqPresent_cons_irrel hnd.1 (ih hnd.2 hb)⟩
    | nil =>
      simp only [bindParams] at h
      cases hkw : alookup kw p.name with
      | some v =>
        rw [hkw] at h
        cases hb : bindParams ps [] kw with
        | error e => rw [hb] at h; cases h
        | ok rest =>
          rw [hb] at h
          cases h
          exact ⟨by simp [alookup_cons_self],
            reqPresent_cons_irrel hnd.1 (ih hnd.2 hb)⟩
      | none =>
        rw [hkw] at h
        cases hd : p.default with
        | some d =>
          rw [hd] at h
          exact ⟨by simp [hd], ih hnd.2 h⟩
        | none => rw [hd] at h; cases h

theorem bind_req_present {α : Type} {sig : Signature α} {args : List α}
    {kwargs : List (String × α)} {ba : Arguments α}
    (hnd : (sig.map Param.name).Nodup)
    (h : Signature.bind sig args kwargs = .ok ba) :
    ReqPresentB sig ba = true :=
  bindParams_req_present hnd (bind_ok_elim h).1

theorem bindParams_supplied {α : Type} {sig : Signature α} {as : List α}
    {kw : List (String × α)} {ba : Arguments α}
    (hnd : (sig.map Param.name).Nodup) (h : bindParams sig as kw = .ok ba)
    (n : String) :
    ((alookup ba n).isSome = true ↔ suppliedB sig as kw n = true) := by
  induction sig generalizing as ba with
  | nil =>
    cases as with
    | nil =>
      simp only [bindParams] at h
      cases h
      simp [alookup, suppliedB]
    | cons a as' => simp only [bindParams] at h; cases h
  | cons p ps ih =>
    rw [List.map_cons, List.nodup_cons] at hnd
    cases as with
    | cons a as' =>
      simp only [bindParams] at h
      split at h
      · cases h
      · cases hb : bindParams ps as' kw with
        | error e => rw [hb] at h; cases h
        | ok rest =>
          rw [hb] at h
          cases h
          by_cases hn : n = p.name
          · subst hn
            simp [alookup_cons_self, suppliedB, List.length_cons,
              List.take_succ_cons]
          · rw [alookup_cons_ne (fun he => hn he.symm), ih hnd.2 hb]
            simp [suppliedB, List.length_cons, List.take_succ_cons,
              List.mem_cons, hn]
    | nil =>
      simp only [bindParams] at h
      cases hkw : alookup kw p.name with
      | some v =>
        rw [hkw] at h
        cases hb : bindParams ps [] kw with
        | error e => rw [hb] at h; cases h
        | ok rest =>
          rw [hb] at h
          cases h
          by_cases hn : n = p.name
          · subst hn
            simp [alookup_cons_self, suppliedB, hkw]
          · rw [alookup_cons_ne (fun he => hn he.symm), ih hnd.2 hb]
            simp [suppliedB, List.mem_cons, hn]
      | none =>
        rw [hkw] at h
        cases hd : p.default with
        | some d =>
          rw [hd] at h
          by_cases hn : n = p.name
          · subst hn
            have hnone : alookup ba p.name = none :=
              alookup_bindParams_none h hnd.1
            simp [hnone, suppliedB, hkw]
          · rw [ih hnd.2 h]
            simp [suppliedB, List.mem_cons, hn]
        | none => rw [hd] at h; cases h

theorem bind_supplied {α : Type} {sig : Signature α} {args : List α}
    {kwargs : List (String × α)} {ba : Arguments α}
    (hnd : (sig.map Param.name).Nodup)
    (h : Signature.bind sig args kwargs = .ok ba) (n : String) :
    ((alookup ba n).isSome = true ↔ suppliedB sig args kwargs n = true) :=
  bindParams_supplied hnd (bind_ok_elim h).1 n

theorem bind_not_supplied {α : Type} {sig : Signature α} {args : List α}
    {kwargs : List (String × α)} {ba : Arguments α}
    (hnd : (sig.map Param.name).Nodup)
    (h : Signature.bind sig args kwargs = .ok ba) {n : String}
    (hs : suppliedB sig args kwargs n = false) : alookup ba n = none := by
  cases hx : alookup ba n with
  | none => rfl
  | some v =>
    have : suppliedB sig args kwargs n = true :=
      (bind_supplied hnd h n).mp (by rw [hx]; rfl)
    rw [this] at hs
    cases hs

/-! Concrete functions and configurations used to exercise the wrappers. -/

/-- A function with one required parameter. -/
def fOne : Func Nat Nat Nat Unit :=
  ⟨"f_one", [⟨"a", none⟩], fun w ba => (w, .ok ((alookup ba "a").getD 0))⟩

/-- A function with one parameter carrying a declared default. -/
def fTwo : Func Nat Nat Nat Unit :=
  ⟨"f_two", [⟨"b", some 1⟩], fun w ba => (w, .ok ((alookup ba "b").getD 0))⟩

/-- C6: a defaulting property reads the freshly invoked fallback while no
override is stored, returns exactly the assigned value (even a null-like
one) once one is, reverts to the fallback after clearing, and clearing
while unset fails with the attribute error — so clearing twice in a row
fails on the second call.  The four equations cover the claim: reads on an
unset slot invoke the fallback on the current world for every read; reads
after `setter` return the stored value with the fallback never invoked
(world untouched); deleting a set slot yields the unset slot (whose reads
are again the fallback, by the first equation); deleting an unset slot
raises. -/
theorem defaultproperty_spec {σ α : Type} (fallback : σ → σ × α) (w : σ)
    (v : α) (slot : Option α) :
    defaultproperty_inner fallback none w = fallback w
    ∧ defaultproperty_inner fallback (defaultproperty_setter slot v) w = (w, v)
    ∧ defaultproperty_deleter (defaultproperty_setter slot v) = .ok none
    ∧ defaultproperty_deleter (none : Option α) = .error .missing :=
  ⟨rfl, rfl, rfl, rfl⟩

/-- C1: contrary to the claim (and to the class's own docstring), a
`SignatureDecorator` instance applied to one function does not raise when
applied to a second one: `__init__` sets `_isset = False`, `__call__`
checks it, but no code path ever assigns `_isset = True`, so the second
decoration silently rebinds the stored function and signature. -/
theorem sigdec_reuse_not_rejected :
    ∃ d1 d2 : SigDec Nat Nat Nat Unit,
      (SigDec.init [] false true).call fOne = .ok d1 ∧
      d1.call fTwo = .ok d2 :=
  ⟨_, _, rfl, rfl⟩

/-- C9: when the actual arguments do not satisfy the declared signature,
both wrappers fail with that binding error before any callback or the
target runs (the world is returned untouched), and the error is exactly
the one an undecorated call of the original function would surface. -/
theorem binding_error_surfaced {σ α β ε : Type} (f : Func σ α β ε)
    (args : List α) (kwargs : List (String × α)) (e : BindError)
    (hbind : Signature.bind f.sig args kwargs = .error e) :
    (∀ (cbs : List (Callback σ α)) (apDef : Bool) (w : σ),
        signature_decorator_factory cbs apDef f w args kwargs
          = (w, .error (.binding e)))
    ∧ (∀ w : σ, callFunc f w args kwargs = (w, .error (.binding e)))
    ∧ (∀ (cbs : List (SDCb σ α β ε)) (apDef apSelf : Bool)
        (d : SigDec σ α β ε) (w : σ),
        SigDec.call (SigDec.init cbs apDef apSelf) f = .ok d →
        SigDec.inner d f w args kwargs = (w, .error (.binding e))) := by
  refine ⟨?_, ?_, ?_⟩
  · intro cbs apDef w
    simp [signature_decorator_factory, bindApply, hbind]
  · intro w
    simp [callFunc, hbind]
  · intro cbs apDef apSelf d w hcall
    simp only [SigDec.call, SigDec.init] at hcall
    rw [if_neg (by simp)] at hcall
    cases hcall
    simp [SigDec.inner, bindApply, hbind]

/-- C9 witness: calling a decorated one-required-parameter function with no
arguments fails with the missing-required binding error, identically for
the factory wrapper and the plain call. -/
theorem binding_error_surfaced_witness :
    signature_decorator_factory [] false fOne 0 [] []
        = (0, .error (.binding (.missingRequired "a")))
    ∧ callFunc fOne 0 [] [] = (0, .error (.binding (.missingRequired "a"))) :=
  ⟨(binding_error_surfaced fOne [] [] (.missingRequired "a") rfl).1 [] false 0,
   (binding_error_surfaced fOne [] [] (.missingRequired "a") rfl).2.1 0⟩

/-- C10: with no callbacks and the apply-defaults flag disabled, the
wrapper produced by `signature_decorator_factory` is observationally
identical to the undecorated function on every call that satisfies the
declared signature: same world, same result. -/
theorem no_callbacks_equiv {σ α β ε : Type} (f : Func σ α β ε) (w : σ)
    (args : List α) (kwargs : List (String × α)) (ba : Arguments α)
    (hnd : (f.sig.map Param.name).Nodup)
    (hbind : Signature.bind f.sig args kwargs = .ok ba) :
    signature_decorator_factory [] false f w args kwargs
      = callFunc f w args kwargs := by
  have hreq := bind_req_present hnd hbind
  simp only [signature_decorator_factory, bindApply, hbind, runCallbacks,
    Bool.false_eq_true, if_false]
  rw [callFunc_of_req hnd hreq]
  simp [callFunc, hbind]

/-- C10 witness: the empty decoration of a concrete function agrees with
the plain call on a concrete argument list. -/
theorem no_callbacks_equiv_witness :
    signature_decorator_factory [] false fOne 3 [7] []
      = callFunc fOne 3 [7] [] :=
  no_callbacks_equiv fOne 3 [7] [] [("a", 7)] (by decide) rfl

/-- C7: on a successful binding, the mapping computed before the callback
phase (`bindApply`) contains, when the flag is enabled, every parameter
with a declared default that the caller did not supply — carrying exactly
its declared default — and, when the flag is disabled, leaves every
parameter the caller did not supply absent; and each wrapper hands exactly
that mapping to its first callback. -/
theorem apply_defaults_flag_spec {σ α β ε : Type} (f : Func σ α β ε)
    (args : List α) (kwargs : List (String × α)) (ba0 : Arguments α)
    (hnd : (f.sig.map Param.name).Nodup)
    (hbind : Signature.bind f.sig args kwargs = .ok ba0) :
    (bindApply f.sig true args kwargs = .ok (applyDefaults f.sig ba0)
      ∧ ∀ p ∈ f.sig, ∀ dv, p.default = some dv →
          suppliedB f.sig args kwargs p.name = false →
          alookup (applyDefaults f.sig ba0) p.name = some dv)
    ∧ (bindApply f.sig false args kwargs = .ok ba0
      ∧ ∀ p ∈ f.sig, suppliedB f.sig args kwargs p.name = false →
          alookup ba0 p.name = none)
    ∧ (∀ (apDef : Bool) (ba1 : Arguments α),
        ba1 = (if apDef then applyDefaults f.sig ba0 else ba0) →
        (∀ (cb : Callback σ α) (cbs : List (Callback σ α)) (w : σ),
          signature_decorator_factory (cb :: cbs) apDef f w args kwargs =
            (fun r2 => callFunc f r2.1 (baArgs f.sig r2.2) (baKwargs f.sig r2.2))
              (runCallbacks cbs (cb w ba1).1 (cb w ba1).2))
        ∧ (∀ (apSelf : Bool) (cb : SDCb σ α β ε) (cbs : List (SDCb σ α β ε))
            (d : SigDec σ α β ε) (w : σ),
            SigDec.call (SigDec.init (cb :: cbs) apDef apSelf) f = .ok d →
            SigDec.inner d f w args kwargs =
              (fun r2 => callFunc f r2.1 (baArgs f.sig r2.2) (baKwargs f.sig r2.2))
                (SigDec.runCbs apSelf (some f) (some f.sig) cbs
                  (if apSelf then cb w (.self ⟨some f, some f.sig, ba1⟩)
                   else cb w (.bargs ba1)).1
                  (if apSelf then cb w (.self ⟨some f, some f.sig, ba1⟩)
                   else cb w (.bargs ba1)).2))) := by
  refine ⟨⟨?_, ?_⟩, ⟨?_, ?_⟩, ?_⟩
  · simp [bindApply, hbind]
  · intro p hp dv hdv hsup
    have hnone : alookup ba0 p.name = none := bind_not_supplied hnd hbind hsup
    rw [alookup_applyDefaults hnd hp, hnone, hdv]
  · simp [bindApply, hbind]
  · intro p hp hsup
    exact bind_not_supplied hnd hbind hsup
  · intro apDef ba1 hba1
    constructor
    · intro cb cbs w
      simp only [signature_decorator_factory, bindApply, hbind, ← hba1,
        runCallbacks]
    · intro apSelf cb cbs d w hcall
      simp only [SigDec.call, SigDec.init] at hcall
      rw [if_neg (by simp)] at hcall
      cases hcall
      simp only [SigDec.inner, bindApply, hbind, ← hba1, SigDec.runCbs]

/-- C7 witness: decorating a function whose sole parameter `b` defaults to
`1` and calling it with no arguments: with the flag enabled the mapping
before the first callback carries `b = 1`; with it disabled, `b` is
absent. -/
theorem apply_defaults_flag_spec_witness :
    alookup (applyDefaults fTwo.sig []) "b" = some 1
    ∧ alookup ([] : Arguments Nat) "b" = none :=
  ⟨(apply_defaults_flag_spec fTwo [] [] [] (by decide) rfl).1.2
      ⟨"b", some 1⟩ (by decide) 1 rfl rfl,
   (apply_defaults_flag_spec fTwo [] [] [] (by decide) rfl).2.1.2
      ⟨"b", some 1⟩ (by decide) rfl⟩

/-- C8: callback writes thread through the callback phase (each callback's
returned mapping is what the next one receives), and after the callbacks
the target is invoked on the final mutated mapping — converted back to a
positional/keyword call and re-completed with declared defaults — with its
return value handed back unchanged and a raised exception propagated
unchanged; the same holds for the class-based wrapper. -/
theorem callback_writes_spec {σ α β ε : Type} (f : Func σ α β ε)
    (apDef : Bool) (args : List α) (kwargs : List (String × α))
    (ba0 ba1 ba2 : Arguments α) (w w2 : σ)
    (hnd : (f.sig.map Param.name).Nodup)
    (hbind : Signature.bind f.sig args kwargs = .ok ba0)
    (hba1 : ba1 = (if apDef then applyDefaults f.sig ba0 else ba0))
    (hreq : ReqPresentB f.sig ba2 = true) :
    (∀ (cb : Callback σ α) (rest : List (Callback σ α)) (w' : σ)
        (ba : Arguments α),
        runCallbacks (cb :: rest) w' ba
          = runCallbacks rest (cb w' ba).1 (cb w' ba).2)
    ∧ (∀ cbs : List (Callback σ α), runCallbacks cbs w ba1 = (w2, ba2) →
        signature_decorator_factory cbs apDef f w args kwargs
          = runBody f w2 (applyDefaults f.sig ba2)
        ∧ (∀ b, (f.body w2 (applyDefaults f.sig ba2)).2 = .ok b →
            (signature_decorator_factory cbs apDef f w args kwargs).2 = .ok b)
        ∧ (∀ err, (f.body w2 (applyDefaults f.sig ba2)).2 = .error err →
            (signature_decorator_factory cbs apDef f w args kwargs).2
              = .error (.raised err)))
    ∧ (∀ (apSelf : Bool) (cbs : List (SDCb σ α β ε)) (d : SigDec σ α β ε),
        SigDec.call (SigDec.init cbs apDef apSelf) f = .ok d →
        SigDec.runCbs apSelf (some f) (some f.sig) cbs w ba1 = (w2, ba2) →
        SigDec.inner d f w args kwargs
          = runBody f w2 (applyDefaults f.sig ba2)) := by
  refine ⟨fun cb rest w' ba => rfl, ?_, ?_⟩
  · intro cbs hrun
    have hmain : signature_decorator_factory cbs apDef f w args kwargs
        = runBody f w2 (applyDefaults f.sig ba2) := by
      simp only [signature_decorator_factory, bindApply, hbind, ← hba1, hrun]
      exact callFunc_of_req hnd hreq
    refine ⟨hmain, ?_, ?_⟩
    · intro b hb
      rw [hmain]
      unfold runBody
      cases hfb : f.body w2 (applyDefaults f.sig ba2) with
      | mk w3 r =>
        rw [hfb] at hb
        cases r with
        | ok b' => cases hb; rfl
        | error e' => cases hb
    · intro err herr
      rw [hmain]
      unfold runBody
      cases hfb : f.body w2 (applyDefaults f.sig ba2) with
      | mk w3 r =>
        rw [hfb] at herr
        cases r with
        | ok b' => cases herr
        | error e' => cases herr; rfl
  · intro apSelf cbs d hcall hrun
    simp only [SigDec.call, SigDec.init] at hcall
    rw [if_neg (by simp)] at hcall
    cases hcall
    simp only [SigDec.inner, bindApply, hbind, ← hba1, hrun]
    exact callFunc_of_req hnd hreq

/-- C8 witness: a callback that overwrites both parameters is reflected in
the target invocation, which returns its (mutated-argument) result
unchanged. -/
theorem callback_writes_spec_witness :
    signature_decorator_factory
        [fun w _ => (w + 10, [("a", 9)])] false fOne 0 [5] []
      = (10, .ok 9) :=
  (((callback_writes_spec fOne false [5] [] [("a", 5)] [("a", 5)] [("a", 9)]
      0 10 (by decide) rfl rfl (by decide)).2.1
    [fun w _ => (w + 10, [("a", 9)])] rfl).1).trans rfl

/-!
Instrumentation for observing callback invocation order.  The world is an
event log (`List Nat`); callback number `i` appends event `i` before
applying its own argument mutation, and the instrumented target function
appends the event `n` (one past the last callback index) when its body
runs.  The log a call leaves behind therefore records exactly which
callables ran, how many times, and in which order.
-/

/-- Tag a list of argument mutations as logging callbacks numbered from
`i`. -/
def logCbs {α : Type} : List (Arguments α → Arguments α) → Nat →
    List (Callback (List Nat) α)
  | [], _ => []
  | g :: rest, i => (fun w ba => (w ++ [i], g ba)) :: logCbs rest (i + 1)

/-- The bound arguments a `SignatureDecorator` callback was handed,
whichever form they arrived in. -/
def cbArgBA {σ α β ε : Type} : CbArg σ α β ε → Arguments α
  | .self v => v.boundarguments
  | .bargs ba => ba

/-- The same logging callbacks in `SignatureDecorator` form. -/
def logSDCbs {α β ε : Type} : List (Arguments α → Arguments α) → Nat →
    List (SDCb (List Nat) α β ε)
  | [], _ => []
  | g :: rest, i =>
    (fun w arg => (w ++ [i], g (cbArgBA arg))) :: logSDCbs rest (i + 1)

/-- A function whose body logs event `n` when it runs. -/
def logFunc {α β ε : Type} (sig : Signature α) (nm : String)
    (fb : Arguments α → β) (n : Nat) : Func (List Nat) α β ε :=
  ⟨nm, sig, fun w ba => (w ++ [n], .ok (fb ba))⟩

theorem runCallbacks_logCbs {α : Type}
    (gs : List (Arguments α → Arguments α)) :
    ∀ (i : Nat) (w : List Nat) (ba : Arguments α),
      (runCallbacks (logCbs gs i) w ba).1 = w ++ List.range' i gs.length := by
  induction gs with
  | nil => intro i w ba; simp [logCbs, runCallbacks, List.range']
  | cons g rest ih =>
    intro i w ba
    simp only [logCbs, runCallbacks]
    rw [ih (i + 1)]
    simp [List.length_cons, List.range'_succ]

theorem runCbs_logSDCbs {α β ε : Type}
    (gs : List (Arguments α → Arguments α)) :
    ∀ (apSelf : Bool) (fo : Option (Func (List Nat) α β ε))
      (so : Option (Signature α)) (i : Nat) (w : List Nat) (ba : Arguments α),
      (SigDec.runCbs apSelf fo so (logSDCbs gs i) w ba).1
        = w ++ List.range' i gs.length := by
  induction gs with
  | nil =>
    intro apSelf fo so i w ba
    simp [logSDCbs, SigDec.runCbs, List.range']
  | cons g rest ih =>
    intro apSelf fo so i w ba
    cases apSelf with
    | true =>
      simp only [logSDCbs, SigDec.runCbs, cbArgBA, if_pos]
      rw [ih true fo so (i + 1)]
      simp [List.length_cons, List.range'_succ]
    | false =>
      simp only [logSDCbs, SigDec.runCbs, cbArgBA]
      rw [if_neg (by simp)]
      rw [ih false fo so (i + 1)]
      simp [List.length_cons, List.range'_succ]

theorem logFunc_sig {α β ε : Type} (sig : Signature α) (nm : String)
    (fb : Arguments α → β) (n : Nat) :
    (@logFunc α β ε sig nm fb n).sig = sig := rfl

theorem logFunc_body {α β ε : Type} (sig : Signature α) (nm : String)
    (fb : Arguments α → β) (n : Nat) :
    (@logFunc α β ε sig nm fb n).body
      = fun w ba => (w ++ [n], .ok (fb ba)) := rfl

/-- C2: for any list of argument mutations, a successful invocation of
either wrapper leaves the event log `[0, 1, ..., n-1, n]`: every one of
the `n` registered callbacks ran exactly once, in registration order, and
the target's body event `n` comes after all of them. -/
theorem callbacks_in_order {α β : Type} (gs : List (Arguments α → Arguments α))
    (sig : Signature α) (nm : String) (fb : Arguments α → β) (apDef : Bool)
    (args : List α) (kwargs : List (String × α)) :
    (∀ r : β,
      (signature_decorator_factory (logCbs gs 0) apDef
          (@logFunc α β Unit sig nm fb gs.length) [] args kwargs).2 = .ok r →
      (signature_decorator_factory (logCbs gs 0) apDef
          (@logFunc α β Unit sig nm fb gs.length) [] args kwargs).1
        = List.range gs.length ++ [gs.length])
    ∧ (∀ (apSelf : Bool) (d : SigDec (List Nat) α β Unit) (r : β),
        SigDec.call (SigDec.init (logSDCbs gs 0) apDef apSelf)
            (@logFunc α β Unit sig nm fb gs.length) = .ok d →
        (SigDec.inner d (@logFunc α β Unit sig nm fb gs.length)
            [] args kwargs).2 = .ok r →
        (SigDec.inner d (@logFunc α β Unit sig nm fb gs.length)
            [] args kwargs).1
          = List.range gs.length ++ [gs.length]) := by
  constructor
  · intro r h
    simp only [signature_decorator_factory, logFunc] at h ⊢
    cases hba : bindApply sig apDef args kwargs with
    | error e =>
      rw [hba] at h
      simp at h
    | ok ba1 =>
      rw [hba] at h
      simp only [callFunc, logFunc] at h ⊢
      cases hb2 : Signature.bind sig
          (baArgs sig (runCallbacks (logCbs gs 0) [] ba1).2)
          (baKwargs sig (runCallbacks (logCbs gs 0) [] ba1).2) with
      | error e =>
        rw [hb2] at h
        simp at h
      | ok ba' =>
        simp only [runBody]
        rw [runCallbacks_logCbs gs 0 [] ba1]
        simp [List.range_eq_range']
  · intro apSelf d r hcall h
    simp only [SigDec.call, SigDec.init] at hcall
    rw [if_neg (by simp)] at hcall
    cases hcall
    simp only [SigDec.inner, logFunc_sig] at h ⊢
    cases hba : bindApply sig apDef args kwargs with
    | error e =>
      rw [hba] at h
      simp at h
    | ok ba1 =>
      rw [hba] at h
      simp only [callFunc, logFunc_sig] at h ⊢
      cases hb2 : Signature.bind sig
          (baArgs sig (SigDec.runCbs apSelf
            (some (@logFunc α β Unit sig nm fb gs.length)) (some sig)
            (logSDCbs gs 0) [] ba1).2)
          (baKwargs sig (SigDec.runCbs apSelf
            (some (@logFunc α β Unit sig nm fb gs.length)) (some sig)
            (logSDCbs gs 0) [] ba1).2) with
      | error e =>
        rw [hb2] at h
        simp at h
      | ok ba' =>
        simp only [runBody, logFunc_body]
        rw [runCbs_logSDCbs gs apSelf _ _ 0 [] ba1]
        simp [List.range_eq_range']

/-- An argument mutation that changes nothing, for exercising the logging
wrapper. -/
def gId : Arguments Nat → Arguments Nat := fun ba => ba

/-- A concrete body for the logging wrapper. -/
def fbDemo : Arguments Nat → Nat := fun ba => (alookup ba "b").getD 0

/-- C2 witness: one registered callback, a successful call: the log is
`[0, 1]` — callback `0` once, then the target's event `1`. -/
theorem callbacks_in_order_witness :
    (signature_decorator_factory (logCbs [gId] 0) false
        (@logFunc Nat Nat Unit fTwo.sig "f_log" fbDemo 1) [] [] []).1
      = [0, 1] :=
  ((callbacks_in_order [gId] fTwo.sig "f_log" fbDemo false [] []).1 1 rfl).trans
    (by decide)

theorem dd_check_some_of_bad {σ α : Type} {params : List String}
    {kw : List (String × DConf σ α)}
    (hbad : ∃ k ∈ kw.map Prod.fst, k ∉ params) :
    ∃ k0, dd_check params kw = some k0
      ∧ k0 ∈ kw.map Prod.fst ∧ k0 ∉ params := by
  induction kw with
  | nil => simp at hbad
  | cons kv rest ih =>
    rw [dd_check]
    by_cases hk : kv.1 ∈ params
    · rw [if_pos hk]
      have hbad' : ∃ k ∈ rest.map Prod.fst, k ∉ params := by
        rcases hbad with ⟨k, hkm, hknot⟩
        rw [List.map_cons, List.mem_cons] at hkm
        rcases hkm with hkm | hkm
        · exact absurd (hkm ▸ hk) hknot
        · exact ⟨k, hkm, hknot⟩
      rcases ih hbad' with ⟨k0, h1, h2, h3⟩
      exact ⟨k0, h1, List.mem_cons_of_mem _ h2, h3⟩
    · rw [if_neg hk]
      exact ⟨kv.1, rfl, by simp, hk⟩

/-- C5: configuring `dynamic_defaults` with any name that is not a declared
parameter of the target makes the decoration itself fail, with the
configuration error carrying an offending configured name and the target
function's name; no wrapper is produced, so the error precedes any call. -/
theorem dynamic_defaults_config_error {σ α β ε : Type}
    (kw : List (String × DConf σ α)) (f : Func σ α β ε)
    (hbad : ∃ k ∈ kw.map Prod.fst, k ∉ f.sig.map Param.name) :
    ∃ k0, k0 ∈ kw.map Prod.fst ∧ k0 ∉ f.sig.map Param.name ∧
      @dynamic_defaults σ α β ε kw f = .error (.ondecoration ⟨k0, f.name⟩) := by
  rcases dd_check_some_of_bad hbad with ⟨k0, h1, h2, h3⟩
  refine ⟨k0, h2, h3, ?_⟩
  simp [dynamic_defaults, SigDec.factory, SigDec.call, SigDec.init,
    dd_ondecoration, h1]

/-- C5 witness: configuring the name `zz`, which `f_one` does not declare,
fails at decoration time naming `zz` and `f_one`. -/
theorem dynamic_defaults_config_error_witness :
    @dynamic_defaults Nat Nat Nat Unit [("zz", ⟨5, none⟩)] fOne
      = .error (.ondecoration ⟨"zz", "f_one"⟩) := by
  obtain ⟨k0, hk, hnot, heq⟩ :=
    dynamic_defaults_config_error [("zz", (⟨5, none⟩ : DConf Nat Nat))] fOne
      ⟨"zz", by simp, by decide⟩
  have hzz : k0 = "zz" := by simpa using hk
  rw [hzz] at heq
  exact heq

/-- The decorator state `dynamic_defaults` produces when every configured
name is declared: a fresh instance carrying the `update` callback,
`apply_defaults = False`, `apply_self = True`, bound to `f`. -/
def ddInst {σ α β ε : Type} (kw : List (String × DConf σ α))
    (f : Func σ α β ε) : SigDec σ α β ε :=
  { callbacks := [dd_update kw], apply_defaults := false, apply_self := true,
    func := some f, signature := some f.sig, isset := false }

theorem dynamic_defaults_unfold {σ α β ε : Type}
    (kw : List (String × DConf σ α)) (f : Func σ α β ε) :
    @dynamic_defaults σ α β ε kw f
      = (match dd_check (f.sig.map Param.name) kw with
         | some k => .error (.ondecoration ⟨k, f.name⟩)
         | none => .ok (ddInst kw f)) := by
  cases hchk : dd_check (f.sig.map Param.name) kw with
  | some k =>
    simp [dynamic_defaults, SigDec.factory, SigDec.call, SigDec.init,
      dd_ondecoration, hchk, ddInst]
  | none =>
    simp [dynamic_defaults, SigDec.factory, SigDec.call, SigDec.init,
      dd_ondecoration, hchk, ddInst]

theorem dd_check_none_forall {σ α : Type} {params : List String}
    {kw : List (String × DConf σ α)} (h : dd_check params kw = none) :
    ∀ k ∈ kw.map Prod.fst, k ∈ params := by
  induction kw with
  | nil => simp
  | cons kv rest ih =>
    rw [dd_check] at h
    by_cases hk : kv.1 ∈ params
    · rw [if_pos hk] at h
      intro k hkm
      rw [List.map_cons, List.mem_cons] at hkm
      rcases hkm with hkm | hkm
      · exact hkm ▸ hk
      · exact ih h k hkm
    · rw [if_neg hk] at h
      cases h

theorem dynamic_defaults_ok_names {σ α β ε : Type}
    {kw : List (String × DConf σ α)} {f : Func σ α β ε} {d : SigDec σ α β ε}
    (hdec : @dynamic_defaults σ α β ε kw f = .ok d) :
    d = ddInst kw f ∧ ∀ k ∈ kw.map Prod.fst, k ∈ f.sig.map Param.name := by
  rw [dynamic_defaults_unfold] at hdec
  cases hchk : dd_check (f.sig.map Param.name) kw with
  | some k => rw [hchk] at hdec; cases hdec
  | none =>
    rw [hchk] at hdec
    cases hdec
    exact ⟨rfl, dd_check_none_forall hchk⟩

theorem dynamic_defaults_call_core {σ α β ε : Type} (xn : String)
    (conf : DConf σ α) (f : Func σ α β ε) (w : σ) (args : List α)
    (kwargs : List (String × α)) (ba0 : Arguments α)
    (hnd : (f.sig.map Param.name).Nodup)
    (hx : xn ∈ f.sig.map Param.name)
    (hbind : Signature.bind f.sig args kwargs = .ok ba0) :
    ((alookup ba0 xn).isSome = true →
       SigDec.inner (ddInst [(xn, conf)] f) f w args kwargs
         = runBody f w (applyDefaults f.sig ba0))
    ∧ (alookup ba0 xn = none →
       SigDec.inner (ddInst [(xn, conf)] f) f w args kwargs
         = runBody f (dd_invoke conf w).1
             (applyDefaults f.sig (ba0 ++ [(xn, (dd_invoke conf w).2)]))
       ∧ alookup (applyDefaults f.sig (ba0 ++ [(xn, (dd_invoke conf w).2)])) xn
           = some (dd_invoke conf w).2) := by
  have hreq0 := bind_req_present hnd hbind
  constructor
  · intro hsome
    simp [SigDec.inner, ddInst, bindApply, hbind, SigDec.runCbs,
      dd_update, dd_fill, hsome]
    rw [callFunc_of_req hnd (reqPresent_applyDefaults hnd hreq0)]
    rw [applyDefaults_idem hnd]
  · intro hnone
    have hfalse : (alookup ba0 xn).isSome = false := by rw [hnone]; rfl
    have hreq1 : ReqPresentB f.sig (ba0 ++ [(xn, (dd_invoke conf w).2)]) = true :=
      reqPresent_append hreq0
    constructor
    · simp [SigDec.inner, ddInst, bindApply, hbind, SigDec.runCbs,
        dd_update, dd_fill, hfalse]
      rw [callFunc_of_req hnd (reqPresent_applyDefaults hnd hreq1)]
      rw [applyDefaults_idem hnd]
    · rcases List.mem_map.mp hx with ⟨p, hp, hpn⟩
      have had := @alookup_applyDefaults _ _
        (ba0 ++ [(xn, (dd_invoke conf w).2)]) _ hnd hp
      rw [hpn] at had
      rw [had, alookup_append, hnone, alookup_cons_self]

/-- C3: with provider `P` (a callable configuration) for parameter `xn`,
a call that does not supply `xn` runs `P` on the current world exactly
once — the body receives the world `P` left behind — and `xn`'s value in
the target's arguments is exactly `P`'s return value; a call that supplies
`xn` reaches the body with the world untouched, so `P` is never invoked. -/
theorem dynamic_defaults_provider_spec {σ α β ε : Type} (xn : String)
    (conf : DConf σ α) (g : σ → σ × Option α) (f : Func σ α β ε)
    (d : SigDec σ α β ε) (w w1 : σ) (rv : α) (args : List α)
    (kwargs : List (String × α)) (ba0 : Arguments α)
    (hnd : (f.sig.map Param.name).Nodup)
    (hdec : @dynamic_defaults σ α β ε [(xn, conf)] f = .ok d)
    (hbind : Signature.bind f.sig args kwargs = .ok ba0)
    (hcall : conf.call = some g) :
    (suppliedB f.sig args kwargs xn = false → g w = (w1, some rv) →
       SigDec.inner d f w args kwargs
         = runBody f w1 (applyDefaults f.sig (ba0 ++ [(xn, rv)]))
       ∧ alookup (applyDefaults f.sig (ba0 ++ [(xn, rv)])) xn = some rv)
    ∧ (suppliedB f.sig args kwargs xn = true →
       SigDec.inner d f w args kwargs
         = runBody f w (applyDefaults f.sig ba0)) := by
  obtain ⟨hd, hnames⟩ := dynamic_defaults_ok_names hdec
  subst hd
  have hx : xn ∈ f.sig.map Param.name := hnames xn (by simp)
  have core := dynamic_defaults_call_core xn conf f w args kwargs ba0 hnd hx hbind
  constructor
  · intro hsup hg
    have hnone : alookup ba0 xn = none := bind_not_supplied hnd hbind hsup
    have hinv : dd_invoke conf w = (w1, rv) := by
      simp [dd_invoke, hcall, hg]
    rcases core.2 hnone with ⟨h1, h2⟩
    rw [hinv] at h1 h2
    exact ⟨h1, h2⟩
  · intro hsup
    have hsome : (alookup ba0 xn).isSome = true :=
      (bind_supplied hnd hbind xn).mpr hsup
    exact core.1 hsome

/-- C4: for a configured parameter absent from the call, a provider whose
invocation raises (after side effects `w1`) does not propagate the
exception: the configured value itself is used for the parameter, and the
body runs in world `w1`; a configured value that is not callable at all is
likewise used directly, with the world untouched. -/
theorem dynamic_defaults_fallback_spec {σ α β ε : Type} (xn : String)
    (conf : DConf σ α) (f : Func σ α β ε) (d : SigDec σ α β ε) (w : σ)
    (args : List α) (kwargs : List (String × α)) (ba0 : Arguments α)
    (hnd : (f.sig.map Param.name).Nodup)
    (hdec : @dynamic_defaults σ α β ε [(xn, conf)] f = .ok d)
    (hbind : Signature.bind f.sig args kwargs = .ok ba0)
    (hsup : suppliedB f.sig args kwargs xn = false) :
    (conf.call = none →
       SigDec.inner d f w args kwargs
         = runBody f w (applyDefaults f.sig (ba0 ++ [(xn, conf.asValue)]))
       ∧ alookup (applyDefaults f.sig (ba0 ++ [(xn, conf.asValue)])) xn
           = some conf.asValue)
    ∧ (∀ (g : σ → σ × Option α) (w1 : σ),
       conf.call = some g → g w = (w1, none) →
       SigDec.inner d f w args kwargs
         = runBody f w1 (applyDefaults f.sig (ba0 ++ [(xn, conf.asValue)]))
       ∧ alookup (applyDefaults f.sig (ba0 ++ [(xn, conf.asValue)])) xn
           = some conf.asValue) := by
  obtain ⟨hd, hnames⟩ := dynamic_defaults_ok_names hdec
  subst hd
  have hx : xn ∈ f.sig.map Param.name := hnames xn (by simp)
  have core := dynamic_defaults_call_core xn conf f w args kwargs ba0 hnd hx hbind
  have hnone : alookup ba0 xn = none := bind_not_supplied hnd hbind hsup
  constructor
  · intro hcall
    have hinv : dd_invoke conf w = (w, conf.asValue) := by
      simp [dd_invoke, hcall]
    rcases core.2 hnone with ⟨h1, h2⟩
    rw [hinv] at h1 h2
    exact ⟨h1, h2⟩
  · intro g w1 hcall hg
    have hinv : dd_invoke conf w = (w1, conf.asValue) := by
      simp [dd_invoke, hcall, hg]
    rcases core.2 hnone with ⟨h1, h2⟩
    rw [hinv] at h1 h2
    exact ⟨h1, h2⟩

/-- A provider that increments the world counter and returns ten times the
world it saw. -/
def confProv : DConf Nat Nat := ⟨99, some (fun w => (w + 1, some (w * 10)))⟩

/-- A configured value that is not callable. -/
def confPlain : DConf Nat Nat := ⟨77, none⟩

/-- C3 witness: calling through `dynamic_defaults` without supplying `b`
invokes the provider once (counter 5 becomes 6) and the body receives
`b = 50`, the provider's return value. -/
theorem dynamic_defaults_provider_spec_witness :
    SigDec.inner (ddInst [("b", confProv)] fTwo) fTwo 5 [] [] = (6, .ok 50) :=
  (((dynamic_defaults_provider_spec "b" confProv
      (fun w => (w + 1, some (w * 10))) fTwo (ddInst [("b", confProv)] fTwo)
      5 6 50 [] [] [] (by decide) rfl rfl rfl).1 rfl rfl).1).trans rfl

/-- C4 witness: a non-callable configured value is used directly: the body
receives `b = 77` and the world is untouched. -/
theorem dynamic_defaults_fallback_spec_witness :
    SigDec.inner (ddInst [("b", confPlain)] fTwo) fTwo 5 [] [] = (5, .ok 77) :=
  (((dynamic_defaults_fallback_spec "b" confPlain fTwo
      (ddInst [("b", confPlain)] fTwo) 5 [] [] [] (by decide) rfl rfl
      rfl).1 rfl).1).trans rfl
